import Mathlib

/-!
Shallow embedding of the LisaBot conversation manager
(src/conversation_manager.py, src/gemini_client.py, src/config.py).

Modelling conventions:
* `datetime` values are Unix seconds as `Int`; `datetime` comparison is
  integer comparison; `timedelta(seconds = k)` is the integer `k`
  (60 s window, 3600 s per hour, 86400 s per day).
* Python dicts used as records become structures; a key that some code
  path leaves absent becomes an `Option` field where `none` means the
  key is absent (so `name : Option (Option String)`: `some none` is the
  key present with value `None`).
* The per-user stores (`self.conversations`, `self.user_profiles`,
  `self.user_rate_limits`) become association lists `List (Nat × _)`.
* `str.lower()` is `String.toLower`, `str.strip()` is `String.trim`.
-/

namespace LisaBot

-- Constants from src/config.py (class Config).
namespace Config

def RATE_LIMIT_REQUESTS : Nat := 10
def RATE_LIMIT_WINDOW : Nat := 60
def MAX_CONVERSATION_HISTORY : Nat := 20
def MAX_USER_MEMORIES : Nat := 50
def CONVERSATION_CLEANUP_HOURS : Nat := 24

end Config

/-- A conversation log entry, src/conversation_manager.py lines 43-47. -/
structure Entry where
  timestamp : Int
  user_message : String
  bot_response : String
deriving DecidableEq, Repr

/-- A stored memory record, src/conversation_manager.py lines 106-110. -/
structure Memory where
  type : String
  content : String
  timestamp : Int
deriving DecidableEq, Repr

/-- An incoming memory candidate as passed to add_memories: a dict with
type and content keys (validated upstream by extract_memories). -/
structure MemIn where
  type : String
  content : String
deriving DecidableEq, Repr

/-- A user profile dict.  `name` is `Option (Option String)` because the
add_memories creation path (lines 96-100) omits the key entirely while
update_user_profile (lines 79-84) stores the possibly-None user_name;
`total_messages` is `Option Nat` because clear_conversation_history
(lines 69-74) rebuilds the dict without that key;
`last_interaction` is `Option Int` because creation paths omit it. -/
structure Profile where
  created_at : Int
  memories : List Memory
  name : Option (Option String)
  total_messages : Option Nat
  last_interaction : Option Int
deriving DecidableEq, Repr

/-- The ConversationManager state, src/conversation_manager.py lines 11-15. -/
structure State where
  conversations : List (Nat × List Entry)
  user_profiles : List (Nat × Profile)
  user_rate_limits : List (Nat × List Int)
deriving DecidableEq, Repr

/-- The trailing-n slice `xs[-n:]` of a Python list (the whole list when
its length is at most n). -/
def lastN (n : Nat) (xs : List α) : List α := xs.drop (xs.length - n)

/-- One append to a user's conversation log: the body of
add_conversation_entry acting on that user's list
(src/conversation_manager.py lines 49-53): append the entry, then keep
only the last MAX_CONVERSATION_HISTORY entries when the bound is
exceeded. -/
def addHistory (l : List Entry) (e : Entry) : List Entry :=
  if (l ++ [e]).length > Config.MAX_CONVERSATION_HISTORY then
    lastN Config.MAX_CONVERSATION_HISTORY (l ++ [e])
  else l ++ [e]

theorem lastN_of_le {xs : List α} {n : Nat} (h : xs.length ≤ n) :
    lastN n xs = xs := by
  rw [lastN, Nat.sub_eq_zero_of_le h, List.drop_zero]

theorem length_lastN (n : Nat) (xs : List α) :
    (lastN n xs).length = xs.length - (xs.length - n) := by
  rw [lastN, List.length_drop]

theorem addHistory_lastN (l : List Entry) (e : Entry) :
    addHistory l e = lastN Config.MAX_CONVERSATION_HISTORY (l ++ [e]) := by
  unfold addHistory
  by_cases hlen : (l ++ [e]).length > Config.MAX_CONVERSATION_HISTORY
  · rw [if_pos hlen]
  · rw [if_neg hlen, lastN_of_le (by omega)]

theorem lastN_lastN_append (n : Nat) (xs ys : List α) :
    lastN n (lastN n xs ++ ys) = lastN n (xs ++ ys) := by
  unfold lastN
  rw [List.drop_append_eq_append_drop, List.drop_append_eq_append_drop,
    List.drop_drop]
  simp only [List.length_drop, List.length_append]
  have h1 : xs.length - n + (xs.length - (xs.length - n) + ys.length - n) =
      xs.length + ys.length - n := by omega
  have h2 : xs.length - (xs.length - n) + ys.length - n -
      (xs.length - (xs.length - n)) = xs.length + ys.length - n - xs.length := by
    omega
  rw [h1, h2]

theorem foldl_addHistory_eq_lastN (es : List Entry) :
    es.foldl addHistory [] = lastN Config.MAX_CONVERSATION_HISTORY es := by
  induction es using List.reverseRecOn with
  | nil => simp [lastN]
  | append_singleton es e ih =>
    rw [List.foldl_append, List.foldl_cons, List.foldl_nil, ih]
    rw [addHistory_lastN, lastN_lastN_append]

/-- Claim C1: after any sequence of add_conversation_entry appends starting
from an absent log, the stored conversation log has length at most
MAX_CONVERSATION_HISTORY (20), and the retained entries are exactly the
most recently appended ones in original insertion order (the trailing
20-slice of the full append sequence). -/
theorem C1_conversation_history_bound (es : List Entry) :
    (es.foldl addHistory []).length ≤ Config.MAX_CONVERSATION_HISTORY ∧
    es.foldl addHistory [] = lastN Config.MAX_CONVERSATION_HISTORY es := by
  refine ⟨?_, foldl_addHistory_eq_lastN es⟩
  rw [foldl_addHistory_eq_lastN es, length_lastN]
  omega

/-- Lower-cased contents of the stored memories, as computed by line 113
of src/conversation_manager.py. -/
def lowerContents (ms : List Memory) : List String :=
  ms.map (fun m => m.content.toLower)

/-- Stamp an incoming candidate with the current time
(src/conversation_manager.py lines 106-110). -/
def stampMemory (now : Int) (c : MemIn) : Memory :=
  { type := c.type, content := c.content, timestamp := now }

/-- The insertion loop of add_memories (src/conversation_manager.py lines
104-115): each candidate is appended unless its lower-cased content
already occurs among the stored (and previously appended) memories. -/
def insertMemories (ms : List Memory) (cands : List MemIn) (now : Int) :
    List Memory :=
  cands.foldl
    (fun acc c =>
      if (lowerContents acc).contains c.content.toLower then acc
      else acc ++ [stampMemory now c])
    ms

/-- The full body of add_memories acting on one profile's memory list
(src/conversation_manager.py lines 104-119): insertion loop, then
truncation to the last MAX_USER_MEMORIES entries when the bound is
exceeded. -/
def add_memories_list (ms : List Memory) (cands : List MemIn) (now : Int) :
    List Memory :=
  if (insertMemories ms cands now).length > Config.MAX_USER_MEMORIES then
    lastN Config.MAX_USER_MEMORIES (insertMemories ms cands now)
  else insertMemories ms cands now

/-- The sub-list of a candidate batch that the insertion loop accepts,
given the lower-cased contents already present. -/
def acceptedFrom (seen : List String) : List MemIn → List MemIn
  | [] => []
  | c :: rest =>
    if seen.contains c.content.toLower then acceptedFrom seen rest
    else c :: acceptedFrom (seen ++ [c.content.toLower]) rest

theorem insertMemories_eq_append (cands : List MemIn) :
    ∀ (ms : List Memory) (now : Int),
      insertMemories ms cands now =
        ms ++ (acceptedFrom (lowerContents ms) cands).map (stampMemory now) := by
  induction cands with
  | nil => intro ms now; simp [insertMemories, acceptedFrom]
  | cons c rest ih =>
    intro ms now
    rw [insertMemories, List.foldl_cons, acceptedFrom]
    by_cases hc : (lowerContents ms).contains c.content.toLower
    · rw [if_pos hc, if_pos hc]
      exact ih ms now
    · rw [if_neg hc, if_neg hc]
      have h2 := ih (ms ++ [stampMemory now c]) now
      rw [insertMemories] at h2
      rw [h2]
      have hl : lowerContents (ms ++ [stampMemory now c]) =
          lowerContents ms ++ [c.content.toLower] := by
        simp [lowerContents, stampMemory]
      rw [hl, List.map_cons, List.append_assoc]
      rfl

theorem acceptedFrom_sublist (cands : List MemIn) :
    ∀ seen : List String, (acceptedFrom seen cands).Sublist cands := by
  induction cands with
  | nil => intro seen; simp [acceptedFrom]
  | cons c rest ih =>
    intro seen
    rw [acceptedFrom]
    by_cases hc : seen.contains c.content.toLower
    · rw [if_pos hc]
      exact (ih seen).cons c
    · rw [if_neg hc]
      exact (ih (seen ++ [c.content.toLower])).cons₂ c

theorem insertMemories_nodup (cands : List MemIn) :
    ∀ (ms : List Memory) (now : Int), (lowerContents ms).Nodup →
      (lowerContents (insertMemories ms cands now)).Nodup := by
  induction cands with
  | nil => intro ms now h; simpa [insertMemories] using h
  | cons c rest ih =>
    intro ms now h
    rw [insertMemories, List.foldl_cons]
    by_cases hc : (lowerContents ms).contains c.content.toLower
    · rw [if_pos hc]
      exact ih ms now h
    · rw [if_neg hc]
      apply ih (ms ++ [stampMemory now c]) now
      have hl : lowerContents (ms ++ [stampMemory now c]) =
          lowerContents ms ++ [c.content.toLower] := by
        simp [lowerContents, stampMemory]
      rw [hl]
      rw [List.nodup_append]
      have hc' : c.content.toLower ∉ lowerContents ms := by
        simpa using hc
      refine ⟨h, List.nodup_singleton _, ?_⟩
      intro a ha hb
      rw [List.mem_singleton] at hb
      subst hb
      exact hc' ha

theorem add_memories_list_eq_lastN (ms : List Memory) (cands : List MemIn)
    (now : Int) :
    add_memories_list ms cands now =
      lastN Config.MAX_USER_MEMORIES (insertMemories ms cands now) := by
  unfold add_memories_list
  by_cases h : (insertMemories ms cands now).length > Config.MAX_USER_MEMORIES
  · rw [if_pos h]
  · rw [if_neg h, lastN_of_le (by omega)]

theorem lowerContents_lastN (n : Nat) (ms : List Memory) :
    lowerContents (lastN n ms) = (lowerContents ms).drop (ms.length - n) := by
  rw [lastN, lowerContents, lowerContents, List.map_drop]

theorem add_memories_list_length (ms : List Memory) (cands : List MemIn)
    (now : Int) :
    (add_memories_list ms cands now).length ≤ Config.MAX_USER_MEMORIES := by
  rw [add_memories_list_eq_lastN, length_lastN]
  omega

theorem add_memories_list_nodup (ms : List Memory) (cands : List MemIn)
    (now : Int) (h : (lowerContents ms).Nodup) :
    (lowerContents (add_memories_list ms cands now)).Nodup := by
  rw [add_memories_list_eq_lastN, lowerContents_lastN]
  exact (insertMemories_nodup cands ms now h).sublist (List.drop_sublist _ _)

theorem foldl_add_memories_inv (calls : List (List MemIn × Int)) :
    ∀ ms : List Memory, (lowerContents ms).Nodup →
      ((calls.foldl (fun acc p => add_memories_list acc p.1 p.2) ms).length ≤
          Config.MAX_USER_MEMORIES ∨ calls = []) ∧
      (lowerContents
        (calls.foldl (fun acc p => add_memories_list acc p.1 p.2) ms)).Nodup := by
  induction calls with
  | nil => intro ms h; exact ⟨Or.inr rfl, h⟩
  | cons p rest ih =>
    intro ms h
    rw [List.foldl_cons]
    have hn := add_memories_list_nodup ms p.1 p.2 h
    rcases ih (add_memories_list ms p.1 p.2) hn with ⟨h1, h2⟩
    refine ⟨Or.inl ?_, h2⟩
    rcases h1 with h1 | h1
    · exact h1
    · rw [h1, List.foldl_nil]
      exact add_memories_list_length ms p.1 p.2

theorem acceptedFrom_nodup_fresh (cands : List MemIn) :
    ∀ seen : List String,
      ((acceptedFrom seen cands).map (fun c => c.content.toLower)).Nodup ∧
      ∀ c ∈ acceptedFrom seen cands, c.content.toLower ∉ seen := by
  induction cands with
  | nil => intro seen; simp [acceptedFrom]
  | cons c rest ih =>
    intro seen
    rw [acceptedFrom]
    by_cases hc : seen.contains c.content.toLower
    · rw [if_pos hc]
      exact ih seen
    · rw [if_neg hc]
      have hc' : c.content.toLower ∉ seen := by simpa using hc
      rcases ih (seen ++ [c.content.toLower]) with ⟨h1, h2⟩
      constructor
      · rw [List.map_cons, List.nodup_cons]
        refine ⟨?_, h1⟩
        intro hmem
        rcases List.mem_map.mp hmem with ⟨d, hd, he⟩
        have := h2 d hd
        rw [he] at this
        exact this (by simp)
      · intro d hd
        rcases List.mem_cons.mp hd with hd | hd
        · subst hd; exact hc'
        · intro hmem
          exact h2 d hd (by simp [hmem])

/-- Claim C2: for every sequence of add_memories calls starting from the
empty memory list, (a) the final memory list has length at most
MAX_USER_MEMORIES (50) and no two stored memories have case-insensitively
identical content; (b) the pre-truncation list of any single call is the
old list followed by the accepted candidates, stamped with the call time,
in their original order; (c) the accepted candidates form a sub-list of
the batch (insertion order preserved), are pairwise distinct in
lower-cased content (so within a single batch the first occurrence wins),
and none collides with already-stored content; (d) the stored list after
one call is exactly the trailing 50-slice of the pre-truncation list
(most recent entries kept). -/
theorem C2_memories_invariant (calls : List (List MemIn × Int)) :
    ((calls.foldl (fun acc p => add_memories_list acc p.1 p.2) []).length ≤
        Config.MAX_USER_MEMORIES ∧
      (lowerContents
        (calls.foldl (fun acc p => add_memories_list acc p.1 p.2) [])).Nodup) ∧
    (∀ (ms : List Memory) (cands : List MemIn) (now : Int),
      insertMemories ms cands now =
        ms ++ (acceptedFrom (lowerContents ms) cands).map (stampMemory now)) ∧
    (∀ (seen : List String) (cands : List MemIn),
      (acceptedFrom seen cands).Sublist cands ∧
      ((acceptedFrom seen cands).map (fun c => c.content.toLower)).Nodup ∧
      ∀ c ∈ acceptedFrom seen cands, c.content.toLower ∉ seen) ∧
    (∀ (ms : List Memory) (cands : List MemIn) (now : Int),
      add_memories_list ms cands now =
        lastN Config.MAX_USER_MEMORIES (insertMemories ms cands now)) := by
  refine ⟨?_, fun ms cands now => insertMemories_eq_append cands ms now,
    ?_, add_memories_list_eq_lastN⟩
  · have h := foldl_add_memories_inv calls [] (by simp [lowerContents])
    rcases h with ⟨h1, h2⟩
    refine ⟨?_, h2⟩
    rcases h1 with h1 | h1
    · exact h1
    · rw [h1, List.foldl_nil]
      simp
  · intro seen cands
    rcases acceptedFrom_nodup_fresh cands seen with ⟨h1, h2⟩
    exact ⟨acceptedFrom_sublist cands seen, h1, h2⟩

/-- The body of check_rate_limit acting on one user's request-time list
(src/conversation_manager.py lines 17-36), parametric in the configured
limit and window: evict entries with now - t not below the window, deny
without recording when the retained count reaches the limit, otherwise
record now and admit.  Returns (admitted?, new list). -/
def check_rate_limit (limit window : Nat) (times : List Int) (now : Int) :
    Bool × List Int :=
  if (times.filter (fun t => now - t < (window : Int))).length ≥ limit then
    (false, times.filter (fun t => now - t < (window : Int)))
  else
    (true, times.filter (fun t => now - t < (window : Int)) ++ [now])

/-- Claim C3: check_rate_limit first evicts every timestamp older than the
window (the post-state never retains a timestamp with now - t > window),
then denies without recording when the retained count is at least the
limit and otherwise appends now and admits; concretely, with limit 3 and
window 60 s, three calls at t = 0 admit, a fourth call at t = 1 denies,
and a fifth call at t = 61 admits again. -/
theorem C3_rate_limit :
    (∀ (limit window : Nat) (times : List Int) (now : Int),
      (check_rate_limit limit window times now).2.filter
        (fun t => decide (now - t > (window : Int))) = [] ∧
      check_rate_limit limit window times now =
        (if (times.filter (fun t => now - t < (window : Int))).length ≥ limit
          then (false, times.filter (fun t => now - t < (window : Int)))
          else (true,
            times.filter (fun t => now - t < (window : Int)) ++ [now]))) ∧
    ((check_rate_limit 3 60 [] 0).1 = true ∧
      (check_rate_limit 3 60 (check_rate_limit 3 60 [] 0).2 0).1 = true ∧
      (check_rate_limit 3 60
        (check_rate_limit 3 60 (check_rate_limit 3 60 [] 0).2 0).2 0).1 =
        true ∧
      (check_rate_limit 3 60
        (check_rate_limit 3 60
          (check_rate_limit 3 60 (check_rate_limit 3 60 [] 0).2 0).2 0).2
        1).1 = false ∧
      (check_rate_limit 3 60
        (check_rate_limit 3 60
          (check_rate_limit 3 60
            (check_rate_limit 3 60 (check_rate_limit 3 60 [] 0).2 0).2 0).2
          1).2 61).1 = true) := by
  constructor
  · intro limit window times now
    constructor
    · rw [List.filter_eq_nil_iff]
      intro t ht
      have hmem : t ∈ times.filter (fun t => now - t < (window : Int)) ∨
          t = now := by
        unfold check_rate_limit at ht
        by_cases h : (times.filter
            (fun t => now - t < (window : Int))).length ≥ limit
        · rw [if_pos h] at ht
          exact Or.inl ht
        · rw [if_neg h] at ht
          rcases List.mem_append.mp ht with h1 | h1
          · exact Or.inl h1
          · exact Or.inr (List.mem_singleton.mp h1)
      rcases hmem with h1 | h1
      · have := List.of_mem_filter h1
        simp only [decide_eq_true_eq] at this ⊢
        omega
      · subst h1
        simp only [decide_eq_true_eq]
        omega
    · rfl
  · refine ⟨by decide, by decide, by decide, by decide, by decide⟩

/-- Truthiness of a Python optional-string value: None and the empty
string are falsy. -/
def truthyStr : Option String → Bool
  | none => false
  | some s => s ≠ ""

/-- Truthiness of profile.get ('name') when name is an
Option (Option String) field: absent key and present-None and present
empty string are all falsy. -/
def truthyName : Option (Option String) → Bool
  | none => false
  | some none => false
  | some (some s) => s ≠ ""

/-- The fresh profile dict created by update_user_profile
(src/conversation_manager.py lines 79-84): note the name key is present,
holding the possibly-None user_name, and last_interaction is absent. -/
def freshProfileTouch (now : Int) (user_name : Option String) : Profile :=
  { created_at := now, memories := [], name := some user_name,
    total_messages := some 0, last_interaction := none }

/-- The fresh profile dict created by add_memories
(src/conversation_manager.py lines 96-100): no name key at all. -/
def freshProfileMem (now : Int) : Profile :=
  { created_at := now, memories := [], name := none,
    total_messages := some 0, last_interaction := none }

/-- The mutation step of update_user_profile on an existing profile
(src/conversation_manager.py lines 86-91): stamp last_interaction, add
one to total_messages (absent key read as 0), and set the name only when
user_name is truthy and the current name value is falsy. -/
def touchProfile (p : Profile) (user_name : Option String) (now : Int) :
    Profile :=
  { p with
    last_interaction := some now,
    total_messages := some (p.total_messages.getD 0 + 1),
    name :=
      if truthyStr user_name && !truthyName p.name then some user_name
      else p.name }

/-- The profile rebuilt by clear_conversation_history
(src/conversation_manager.py lines 68-74): only the memories, name,
created_at keys survive (name becoming present-None when it was absent),
last_interaction is stamped, and total_messages is dropped. -/
def clearProfile (p : Profile) (now : Int) : Profile :=
  { created_at := p.created_at, memories := p.memories,
    name := some p.name.join, total_messages := none,
    last_interaction := some now }

/-- add_memories restricted to one existing profile
(src/conversation_manager.py lines 102-119). -/
def add_memories_profile (p : Profile) (cands : List MemIn) (now : Int) :
    Profile :=
  { p with memories := add_memories_list p.memories cands now }

/-- The per-profile body of the periodic cleanup_old_memories sweep
(src/conversation_manager.py lines 223-236): keep memories newer than
7 days (604800 s) before now, then truncate to the trailing
MAX_USER_MEMORIES entries. -/
def cleanup_old_memories_profile (p : Profile) (now : Int) : Profile :=
  let kept := p.memories.filter (fun m => m.timestamp > now - 604800)
  { p with memories := lastN Config.MAX_USER_MEMORIES kept }

/-- The body of auto_cleanup_memories_for_user on one existing profile
(src/conversation_manager.py lines 246-266), translated faithfully: the
local variable memories is bound to the INITIAL list, the over-cap branch
stores the trailing 50-slice, and then the 30-day (2592000 s) age filter
is applied to the INITIAL list and its result overwrites the profile's
memories — so the cap assignment never survives the call. -/
def auto_cleanup_memories_for_user (p : Profile) (now : Int) : Profile :=
  let memories := p.memories
  let p1 :=
    if memories.length > Config.MAX_USER_MEMORIES then
      { p with memories := lastN Config.MAX_USER_MEMORIES memories }
    else p
  { p1 with memories := memories.filter (fun m => m.timestamp > now - 2592000) }

/-- The observable total_messages count: profile.get reads an absent key
as 0 (src/conversation_manager.py lines 88 and 139). -/
def totalMessagesVal (p : Profile) : Nat := p.total_messages.getD 0

/-- Replace the value stored under a key of an association list, leaving
other keys untouched. -/
def setAssoc (l : List (Nat × α)) (k : Nat) (f : α → α) : List (Nat × α) :=
  l.map (fun kv => if kv.1 = k then (kv.1, f kv.2) else kv)

/-- update_user_profile on the whole store
(src/conversation_manager.py lines 76-91): create the profile when
absent, then touch it. -/
def update_user_profile (s : State) (uid : Nat) (user_name : Option String)
    (now : Int) : State :=
  let ps :=
    if (s.user_profiles.lookup uid).isSome then s.user_profiles
    else s.user_profiles ++ [(uid, freshProfileTouch now user_name)]
  { s with user_profiles :=
      setAssoc ps uid (fun p => touchProfile p user_name now) }

/-- add_conversation_entry on the whole store
(src/conversation_manager.py lines 38-56): append to (or create) the
user's log, truncate it, then update the profile. -/
def add_conversation_entry (s : State) (uid : Nat) (user_message
    bot_response : String) (user_name : Option String) (now : Int) : State :=
  let cs :=
    if (s.conversations.lookup uid).isSome then s.conversations
    else s.conversations ++ [(uid, [])]
  let app := fun l => addHistory l ⟨now, user_message, bot_response⟩
  let s1 := { s with conversations := setAssoc cs uid app }
  update_user_profile s1 uid user_name now

/-- add_memories on the whole store
(src/conversation_manager.py lines 93-119). -/
def add_memories (s : State) (uid : Nat) (cands : List MemIn) (now : Int) :
    State :=
  let ps :=
    if (s.user_profiles.lookup uid).isSome then s.user_profiles
    else s.user_profiles ++ [(uid, freshProfileMem now)]
  { s with user_profiles :=
      setAssoc ps uid (fun p => add_memories_profile p cands now) }

/-- get_conversation_history (src/conversation_manager.py lines 58-60):
absent users read as the empty log. -/
def get_conversation_history (s : State) (uid : Nat) : List Entry :=
  (s.conversations.lookup uid).getD []

/-- clear_conversation_history on the whole store
(src/conversation_manager.py lines 62-74): drop the user's log and, when
a profile exists, rebuild it keeping only memories, name and created_at. -/
def clear_conversation_history (s : State) (uid : Nat) (now : Int) : State :=
  { s with
    conversations := s.conversations.filter (fun c => c.1 != uid),
    user_profiles := setAssoc s.user_profiles uid (fun p => clearProfile p now) }

/-- The Unix time of the string 2000-01-01T00:00:00, the default that
cleanup_old_conversations substitutes for an absent last_interaction
(src/conversation_manager.py line 208). -/
def defaultEpoch : Int := 946684800

/-- Whether a profile counts as inactive for the periodic conversation
sweep (src/conversation_manager.py lines 208-209): last_interaction
(absent read as the year-2000 default) strictly before now minus
CONVERSATION_CLEANUP_HOURS. -/
def isStale (p : Profile) (now : Int) : Bool :=
  p.last_interaction.getD defaultEpoch <
    now - (Config.CONVERSATION_CLEANUP_HOURS : Int) * 3600

/-- The users_to_cleanup list collected by cleanup_old_conversations
(src/conversation_manager.py lines 206-210). -/
def staleIds (s : State) (now : Int) : List Nat :=
  (s.user_profiles.filter (fun up => isStale up.2 now)).map Prod.fst

/-- cleanup_old_conversations (src/conversation_manager.py lines
202-217): collect the users with inactive profiles, delete those users'
conversation logs, leave profiles alone.  The Nat component is the count
the function logs at line 217 (the function itself returns None). -/
def cleanup_old_conversations (s : State) (now : Int) : State × Nat :=
  ({ s with conversations :=
      s.conversations.filter (fun c => !((staleIds s now).contains c.1)) },
    (staleIds s now).length)

/-- Claim C4 is refuted here: clear_conversation_history rebuilds the
profile without the total_messages key, so the observable count drops
from 3 to 0 for this concrete profile. -/
theorem C4_total_messages_counterexample :
    totalMessagesVal
        (clearProfile ⟨0, [], some none, some 3, some 0⟩ 5) <
      totalMessagesVal (⟨0, [], some none, some 3, some 0⟩ : Profile) := by
  decide

/-- Claim C4 (amended): total_messages is monotonically non-decreasing
across update_user_profile, add_memories and both periodic sweeps (the
conversation sweep does not touch profiles at all); it is NOT preserved
by clear_conversation_history, which drops the key so the count reads as
0 afterwards. -/
theorem C4_total_messages_monotone_amended :
    (∀ (p : Profile) (un : Option String) (now : Int),
      totalMessagesVal p ≤ totalMessagesVal (touchProfile p un now)) ∧
    (∀ (p : Profile) (cands : List MemIn) (now : Int),
      totalMessagesVal (add_memories_profile p cands now) =
        totalMessagesVal p) ∧
    (∀ (p : Profile) (now : Int),
      totalMessagesVal (cleanup_old_memories_profile p now) =
        totalMessagesVal p) ∧
    (∀ (p : Profile) (now : Int),
      totalMessagesVal (auto_cleanup_memories_for_user p now) =
        totalMessagesVal p) ∧
    (∀ (s : State) (now : Int),
      (cleanup_old_conversations s now).1.user_profiles = s.user_profiles) ∧
    (∀ (p : Profile) (now : Int),
      totalMessagesVal (clearProfile p now) = 0) := by
  refine ⟨?_, ?_, ?_, ?_, ?_, ?_⟩
  · intro p un now
    simp [totalMessagesVal, touchProfile]
  · intro p cands now; rfl
  · intro p now; rfl
  · intro p now
    simp only [totalMessagesVal, auto_cleanup_memories_for_user]
    split <;> rfl
  · intro s now; rfl
  · intro p now; rfl

/-- Claim C5: on a profile holding 51 memories all stamped at the current
instant, auto_cleanup_memories_for_user leaves 51 memories — above
MAX_USER_MEMORIES (50) — because the age filter is applied to the
original list and overwrites the capped one. -/
theorem C5_auto_cleanup_cap_not_applied :
    (auto_cleanup_memories_for_user
        ⟨0, List.replicate 51 ⟨"interest", "x", 0⟩, none, some 0, none⟩
        0).memories.length = 51 ∧
      51 > Config.MAX_USER_MEMORIES := by
  constructor
  · rfl
  · decide

theorem lookup_filter_not_contains (st : List Nat)
    (l : List (Nat × List Entry)) (uid : Nat) :
    (l.filter (fun c => !(st.contains c.1))).lookup uid =
      if st.contains uid then none else l.lookup uid := by
  induction l with
  | nil => simp
  | cons kv rest ih =>
    rcases kv with ⟨k, v⟩
    rw [List.filter_cons]
    by_cases hk : st.contains k
    · rw [if_neg (by simpa using hk), ih]
      by_cases hu : uid = k
      · subst hu
        rw [if_pos hk, if_pos hk]
      · have hne : (uid == k) = false := by simp [hu]
        by_cases hcu : st.contains uid
        · rw [if_pos hcu, if_pos hcu]
        · rw [if_neg hcu, if_neg hcu]
          simp [List.lookup_cons, hne]
    · rw [if_pos (by simpa using hk)]
      by_cases hu : uid = k
      · subst hu
        rw [if_neg hk]
        simp [List.lookup_cons]
      · have hne : (uid == k) = false := by simp [hu]
        simp only [List.lookup_cons, hne, cond_false]
        rw [ih]

/-- The concrete state refuting C6: one user (id 7) whose profile is
25 days inactive at the observation time but who has no conversation
log. -/
def sweepCounterState : State :=
  { conversations := [],
    user_profiles := [(7, ⟨0, [], some none, some 1, some 0⟩)],
    user_rate_limits := [] }

/-- Claim C6 is refuted here: at sweepCounterState the count reported by
cleanup_old_conversations is 1, yet no conversation log was removed (the
conversation store is unchanged), so the reported number is not the
number of users whose log was removed — and the Python function in fact
returns None, only logging this count. -/
theorem C6_sweep_counterexample :
    (cleanup_old_conversations sweepCounterState 1000000).2 ≠
        sweepCounterState.conversations.length -
          (cleanup_old_conversations sweepCounterState
            1000000).1.conversations.length ∧
      (cleanup_old_conversations sweepCounterState 1000000).1.conversations =
        sweepCounterState.conversations := by
  decide

/-- Claim C6 (amended): cleanup_old_conversations removes the
conversation log of exactly those users whose profile last_interaction
(absent read as year 2000) is older than the cutoff before the current
time, leaves every profile (with its memories) unchanged, and logs — the
Python function returns None rather than returning the value — the
number of users with such stale profiles, which counts users even when
they had no log to remove. -/
theorem C6_sweep_amended (s : State) (now : Int) (uid : Nat) :
    (cleanup_old_conversations s now).1.user_profiles = s.user_profiles ∧
    ((cleanup_old_conversations s now).1.conversations.lookup uid =
      if (staleIds s now).contains uid then none
      else s.conversations.lookup uid) ∧
    (cleanup_old_conversations s now).2 = (staleIds s now).length ∧
    (uid ∈ staleIds s now ↔
      ∃ p, (uid, p) ∈ s.user_profiles ∧ isStale p now = true) := by
  refine ⟨rfl, ?_, rfl, ?_⟩
  · exact lookup_filter_not_contains (staleIds s now) s.conversations uid
  · constructor
    · intro h
      rcases List.mem_map.mp h with ⟨up, hup, he⟩
      rcases List.mem_filter.mp hup with ⟨h1, h2⟩
      exact ⟨up.2, by rw [← he]; exact h1, h2⟩
    · intro ⟨p, hp, hs⟩
      exact List.mem_map.mpr ⟨(uid, p), List.mem_filter.mpr ⟨hp, hs⟩, rfl⟩

/-- One step of building the memory_summary dict of
format_profile_summary (src/conversation_manager.py lines 146-150), over
an insertion-ordered association list: append the content to the entry
of an existing type, or add the type at the end. -/
def updateSummary : List (String × List String) → String → String →
    List (String × List String)
  | [], t, c => [(t, [c])]
  | (k, v) :: rest, t, c =>
    if k = t then (k, v ++ [c]) :: rest
    else (k, v) :: updateSummary rest t c

/-- The memory_summary dict of format_profile_summary
(src/conversation_manager.py lines 143-150): built from the last 10
memories, in iteration order. -/
def memory_summary (ms : List Memory) : List (String × List String) :=
  (lastN 10 ms).foldl (fun acc m => updateSummary acc m.type m.content) []

/-- The per-type content list of the summary dict (no entry reads as
empty). -/
def summaryContents (assoc : List (String × List String)) (t : String) :
    List String :=
  (assoc.lookup t).getD []

theorem summaryContents_updateSummary
    (acc : List (String × List String)) (k c t : String) :
    summaryContents (updateSummary acc k c) t =
      if t = k then summaryContents acc t ++ [c]
      else summaryContents acc t := by
  induction acc with
  | nil =>
    by_cases ht : t = k
    · subst ht; simp [updateSummary, summaryContents, List.lookup]
    · have hne : (t == k) = false := by simp [ht]
      simp [updateSummary, summaryContents, List.lookup, hne, ht]
  | cons kv rest ih =>
    rcases kv with ⟨k', v⟩
    rw [updateSummary]
    by_cases hk : k' = k
    · subst hk
      rw [if_pos rfl]
      by_cases ht : t = k'
      · subst ht
        simp [summaryContents, List.lookup_cons]
      · have hne : (t == k') = false := by simp [ht]
        simp [summaryContents, List.lookup_cons, hne, ht]
    · rw [if_neg hk]
      by_cases ht : t = k'
      · have htk : ¬ t = k := by rw [ht]; exact hk
        rw [if_neg htk]
        have hbe : (t == k') = true := by simp [ht]
        simp [summaryContents, List.lookup_cons, hbe]
      · have hne : (t == k') = false := by simp [ht]
        simp only [summaryContents, List.lookup_cons, hne, cond_false]
        exact ih

theorem summaryContents_foldl (xs : List Memory) :
    ∀ (acc : List (String × List String)) (t : String),
      summaryContents
          (xs.foldl (fun a m => updateSummary a m.type m.content) acc) t =
        summaryContents acc t ++
          (xs.filter (fun m => m.type == t)).map (fun m => m.content) := by
  induction xs with
  | nil => intro acc t; simp
  | cons m rest ih =>
    intro acc t
    rw [List.foldl_cons, ih, summaryContents_updateSummary,
      List.filter_cons]
    by_cases ht : t = m.type
    · rw [if_pos ht, if_pos (by simp [ht.symm])]
      simp
    · have h2 : ¬ (m.type == t) = true := by
        simp only [beq_iff_eq]
        exact fun h => ht h.symm
      rw [if_neg ht, if_neg h2]

/-- The within-type content order that the spec sentence for
formatSummary prescribes (most-recent-first): the reverse of the
chronological order of the last 10 memories of that type.  This
definition follows the spec wording, for comparison with the code's
memory_summary. -/
def specSummaryContentsMostRecentFirst (ms : List Memory) (t : String) :
    List String :=
  (((lastN 10 ms).filter (fun m => m.type == t)).map
    (fun m => m.content)).reverse

/-- Claim C7 is refuted here: with two "interest" memories stored in
chronological order a then b, format_profile_summary lists them as
[a, b] (oldest first), not most-recent-first [b, a] as the spec
prescribes. -/
theorem C7_summary_counterexample :
    summaryContents
        (memory_summary [⟨"interest", "a", 0⟩, ⟨"interest", "b", 1⟩])
        "interest" ≠
      specSummaryContentsMostRecentFirst
        [⟨"interest", "a", 0⟩, ⟨"interest", "b", 1⟩] "interest" := by
  decide

/-- Claim C7 (amended): format_profile_summary considers only the last
10 memories and groups them by type, but within each type the contents
are listed in their original chronological order (oldest first), not
most-recent-first. -/
theorem C7_summary_amended (ms : List Memory) (t : String) :
    summaryContents (memory_summary ms) t =
      ((lastN 10 ms).filter (fun m => m.type == t)).map
        (fun m => m.content) := by
  rw [memory_summary, summaryContents_foldl]
  simp [summaryContents]

/-- A parsed memory candidate as seen by the validation loop of
extract_memories (src/gemini_client.py lines 135-141): either not a dict
at all, or a dict whose type and content keys may each be absent. -/
inductive MemoryCandidate where
  | nonRecord : MemoryCandidate
  | record : Option String → Option String → MemoryCandidate
deriving DecidableEq, Repr

/-- The fixed memory-type set of src/gemini_client.py line 133. -/
def valid_types : List String :=
  ["interest", "goal", "achievement", "preference", "desire", "fantasy",
    "secret", "passion", "weakness"]

/-- Python str.strip (): drop whitespace from both ends, modelled over
the character list. -/
def pyStrip (s : String) : String :=
  ⟨((s.data.dropWhile Char.isWhitespace).reverse.dropWhile
      Char.isWhitespace).reverse⟩

/-- The validation predicate of src/gemini_client.py lines 136-140: a
dict with both keys, a type in the fixed set, and content whose
whitespace-stripped form is non-empty. -/
def isValidCandidate : MemoryCandidate → Bool
  | .nonRecord => false
  | .record t c =>
    (match t with
      | some ty => valid_types.contains ty
      | none => false) &&
    (match c with
      | some s => (pyStrip s).length > 0
      | none => false)

/-- The valid_memories accumulation loop of extract_memories
(src/gemini_client.py lines 132-143). -/
def extract_valid_memories (cands : List MemoryCandidate) :
    List MemoryCandidate :=
  cands.foldl (fun acc c => if isValidCandidate c then acc ++ [c] else acc) []

theorem string_eq_empty_of_length_eq_zero {s : String} (h : s.length = 0) :
    s = "" := by
  cases s with
  | mk data =>
    have hd : data = [] := List.length_eq_zero.mp h
    rw [hd]

theorem extract_valid_memories_foldl (cands : List MemoryCandidate) :
    ∀ acc : List MemoryCandidate,
      cands.foldl (fun acc c => if isValidCandidate c then acc ++ [c] else acc)
          acc =
        acc ++ cands.filter isValidCandidate := by
  induction cands with
  | nil => intro acc; simp
  | cons c rest ih =>
    intro acc
    rw [List.foldl_cons, List.filter_cons]
    by_cases hc : isValidCandidate c
    · rw [if_pos hc, if_pos hc, ih, List.append_assoc]
      rfl
    · rw [if_neg hc, if_neg (by simpa using hc), ih]

/-- Claim C8: extract_memories keeps exactly the candidates that are
records with a type in the fixed nine-element memory-type set and
content non-empty after stripping whitespace, in order (a plain filter);
every other candidate is dropped silently (the function is total and
just omits them). -/
theorem C8_extract_memories_validation :
    (∀ cands : List MemoryCandidate,
      extract_valid_memories cands = cands.filter isValidCandidate) ∧
    (∀ c : MemoryCandidate,
      isValidCandidate c = true ↔
        ∃ ty s, c = MemoryCandidate.record (some ty) (some s) ∧
          ty ∈ valid_types ∧ pyStrip s ≠ "") := by
  constructor
  · intro cands
    rw [extract_valid_memories, extract_valid_memories_foldl]
    rfl
  · intro c
    cases c with
    | nonRecord =>
      simp [isValidCandidate]
    | record t s =>
      cases t with
      | none => simp [isValidCandidate]
      | some ty =>
        cases s with
        | none => simp [isValidCandidate]
        | some s =>
          simp only [isValidCandidate, Bool.and_eq_true, decide_eq_true_eq]
          constructor
          · intro ⟨h1, h2⟩
            refine ⟨ty, s, rfl, by simpa using h1, ?_⟩
            intro he
            rw [he] at h2
            exact (by decide : ¬ ("" : String).length > 0) h2
          · intro ⟨ty', s', heq, hmem, hne⟩
            simp only [MemoryCandidate.record.injEq, Option.some.injEq] at heq
            obtain ⟨rfl, rfl⟩ := heq
            refine ⟨by simpa using hmem, ?_⟩
            by_contra h
            push_neg at h
            exact hne (string_eq_empty_of_length_eq_zero (Nat.le_zero.mp h))

theorem clearProfile_idem (p : Profile) (now : Int) :
    clearProfile (clearProfile p now) now = clearProfile p now := by
  simp [clearProfile]

theorem filter_idem (p : α → Bool) (l : List α) :
    (l.filter p).filter p = l.filter p := by
  induction l with
  | nil => rfl
  | cons a rest ih =>
    rw [List.filter_cons]
    by_cases h : p a
    · rw [if_pos h, List.filter_cons, if_pos h, ih]
    · rw [if_neg h, ih]

theorem setAssoc_setAssoc (l : List (Nat × α)) (k : Nat) (f g : α → α) :
    setAssoc (setAssoc l k f) k g = setAssoc l k (fun x => g (f x)) := by
  induction l with
  | nil => rfl
  | cons kv rest ih =>
    rcases kv with ⟨k', v⟩
    simp only [setAssoc, List.map_cons] at ih ⊢
    by_cases hk : k' = k
    · subst hk
      simp [ih]
    · simp only [if_neg hk]
      rw [ih]

theorem lookup_filter_ne (l : List (Nat × List Entry)) (uid : Nat) :
    (l.filter (fun c => c.1 != uid)).lookup uid = none := by
  induction l with
  | nil => rfl
  | cons kv rest ih =>
    rcases kv with ⟨k, v⟩
    rw [List.filter_cons]
    by_cases hk : k = uid
    · rw [if_neg (by simp [hk])]
      exact ih
    · rw [if_pos (by simpa using hk)]
      have hne : (uid == k) = false := beq_false_of_ne (Ne.symm hk)
      simp only [List.lookup_cons, hne, cond_false]
      exact ih

theorem filter_ne_of_lookup_none (l : List (Nat × List Entry)) (uid : Nat)
    (h : l.lookup uid = none) : l.filter (fun c => c.1 != uid) = l := by
  induction l with
  | nil => rfl
  | cons kv rest ih =>
    rcases kv with ⟨k, v⟩
    by_cases hk : uid = k
    · subst hk
      simp [List.lookup_cons] at h
    · have hne : (uid == k) = false := by simp [hk]
      simp only [List.lookup_cons, hne, cond_false] at h
      rw [List.filter_cons, if_pos (by simpa using Ne.symm hk), ih h]

/-- Claim C9: clear_conversation_history is idempotent — clearing twice
in a row at the same instant leaves the same state as clearing once —
get_conversation_history returns the empty list afterwards, and for a
user with no conversation log the conversation store is unchanged. -/
theorem C9_clear_idempotent (s : State) (uid : Nat) (now : Int) :
    clear_conversation_history (clear_conversation_history s uid now) uid
        now =
      clear_conversation_history s uid now ∧
    get_conversation_history (clear_conversation_history s uid now) uid =
      [] ∧
    (s.conversations.lookup uid = none →
      (clear_conversation_history s uid now).conversations =
        s.conversations) := by
  refine ⟨?_, ?_, ?_⟩
  · simp only [clear_conversation_history]
    congr 1
    · exact filter_idem _ _
    · rw [setAssoc_setAssoc]
      have hf : (fun p => clearProfile (clearProfile p now) now) =
          fun p => clearProfile p now :=
        funext fun p => clearProfile_idem p now
      rw [hf]
  · simp only [get_conversation_history, clear_conversation_history]
    rw [lookup_filter_ne]
    rfl
  · intro h
    exact filter_ne_of_lookup_none s.conversations uid h

/-- Witness for C9 at the empty state and user 1: that user has no log,
so all three conjuncts apply concretely. -/
theorem C9_clear_idempotent_witness :
    clear_conversation_history
        (clear_conversation_history ⟨[], [], []⟩ 1 0) 1 0 =
      clear_conversation_history ⟨[], [], []⟩ 1 0 ∧
    get_conversation_history (clear_conversation_history ⟨[], [], []⟩ 1 0)
        1 = [] ∧
    (clear_conversation_history (⟨[], [], []⟩ : State) 1 0).conversations =
      (⟨[], [], []⟩ : State).conversations :=
  ⟨(C9_clear_idempotent ⟨[], [], []⟩ 1 0).1,
    (C9_clear_idempotent ⟨[], [], []⟩ 1 0).2.1,
    (C9_clear_idempotent ⟨[], [], []⟩ 1 0).2.2 rfl⟩

/-- The name shown by format_profile_summary's greeting
(src/conversation_manager.py lines 138 and 152): profile.get with
default "gorgeous" when the name key is absent; when the key is present
with Python None, the f-string renders the literal text "None". -/
def profileGreetingName (p : Profile) : String :=
  match p.name with
  | none => "gorgeous"
  | some none => "None"
  | some (some s) => s

/-- Claim C10: a profile created by update_user_profile without a display
name has the name key present holding None, so the greeting shows the
literal "None"; a profile created by add_memories has no name key at all,
so the greeting falls back to "gorgeous"; and the name key can only be
absent on add_memories-created profiles: update_user_profile never
removes a present name key, clear_conversation_history always leaves it
present, and add_memories never touches an existing profile's name. -/
theorem C10_name_fallback :
    ((touchProfile (freshProfileTouch 0 none) none 0).name = some none ∧
      profileGreetingName (touchProfile (freshProfileTouch 0 none) none 0) =
        "None") ∧
    ((freshProfileMem 0).name = none ∧
      profileGreetingName (freshProfileMem 0) = "gorgeous") ∧
    (∀ (p : Profile) (un : Option String) (now : Int), p.name ≠ none →
      (touchProfile p un now).name ≠ none) ∧
    (∀ (p : Profile) (now : Int), (clearProfile p now).name ≠ none) ∧
    (∀ (p : Profile) (cands : List MemIn) (now : Int),
      (add_memories_profile p cands now).name = p.name) := by
  refine ⟨⟨rfl, rfl⟩, ⟨rfl, rfl⟩, ?_, ?_, ?_⟩
  · intro p un now h
    simp only [touchProfile]
    split
    · simp
    · exact h
  · intro p now
    simp [clearProfile]
  · intro p cands now
    rfl

/-- Witness for C10 at a profile with a present name: touching it keeps
the name key present. -/
theorem C10_name_fallback_witness :
    (⟨0, [], some (some "Al"), some 0, none⟩ : Profile).name ≠ none ∧
      (touchProfile ⟨0, [], some (some "Al"), some 0, none⟩ none 0).name ≠
        none :=
  ⟨by decide,
    C10_name_fallback.2.2.1 ⟨0, [], some (some "Al"), some 0, none⟩ none 0
      (by decide)⟩

end LisaBot
